import Mathlib

set_option maxRecDepth 100000

/-!
Verification of the OSKAR binary container reader.

Shallow embedding of `src/karabo/binary_reader.py`: the header/tag data
model, the bit-field predicates, the CRC32C integrity check and the
payload decoding pipeline.  Bytes are modelled as `Nat` values `< 256`
in `List Nat`; multi-byte fields are little-endian unless stated.
-/

/-! ## Byte-list helpers -/

/-- Little-endian interpretation of a byte list as an unsigned integer. -/
def leNat (bs : List Nat) : Nat := bs.foldr (fun b acc => b + 256 * acc) 0

/-- Byte at index `i`, defaulting to 0 past the end. -/
def byteAt (bs : List Nat) (i : Nat) : Nat := bs.getD i 0

/-! ## Population count (`PackedBinaryStructure.popCount` and friends)

The source dispatches on the Python runtime version: on Python >= 3.10 it
calls the `int.bit_count()` primitive (`fastPopCount`), otherwise a manual
shift-and-mask loop (`legacyPopCount`).  The runtime condition is modelled
as a boolean `fastAvail`.  Both loops are written with an explicit fuel
argument equal to the starting number, which strictly bounds the number of
halving steps, so that the definitions compute by kernel reduction. -/

/-- Binary digit sum: model of Python's `int.bit_count()` primitive
(number of ones in the binary representation), written as the textbook
digit-sum recursion `n % 2 + bitcount (n / 2)`. -/
def fastPopCountAux : Nat → Nat → Nat
  | 0, _ => 0
  | fuel + 1, n => if n = 0 then 0 else n % 2 + fastPopCountAux fuel (n / 2)

/-- Model of `PackedBinaryStructure.fastPopCount` (delegates to `int.bit_count()`). -/
def fastPopCount (n : Nat) : Nat := fastPopCountAux n n

/-- Model of `PackedBinaryStructure.legacyPopCount`:
`while n > 0: count += n & 1; n >>= 1`. -/
def legacyPopCountAux : Nat → Nat → Nat
  | 0, _ => 0
  | fuel + 1, n => if n = 0 then 0 else (n &&& 1) + legacyPopCountAux fuel (n >>> 1)

/-- Model of `PackedBinaryStructure.legacyPopCount`. -/
def legacyPopCount (n : Nat) : Nat := legacyPopCountAux n n

/-- Model of `PackedBinaryStructure.popCount`: version-dispatched choice
between the two implementations. -/
def popCount (fastAvail : Bool) (n : Nat) : Nat :=
  if fastAvail then fastPopCount n else legacyPopCount n

/-! ## CRC32C

The source calls the external `crc32c` library (`crc32c.crc32c(data)`),
the standard Castagnoli CRC-32C: reflected polynomial `0x82F63B78`,
initial register `0xFFFFFFFF`, final complement. -/

/-- The reflected Castagnoli polynomial. -/
def crc32cPoly : Nat := 0x82F63B78

/-- One bit step of the reflected CRC-32C computation. -/
def crcBitStep (crc : Nat) : Nat :=
  if crc &&& 1 = 1 then (crc >>> 1) ^^^ crc32cPoly else crc >>> 1

/-- Absorb one byte into the CRC register (8 bit steps). -/
def crcByteStep (crc b : Nat) : Nat :=
  let c := crc ^^^ (b % 256)
  crcBitStep (crcBitStep (crcBitStep (crcBitStep
    (crcBitStep (crcBitStep (crcBitStep (crcBitStep c)))))))

/-- Model of the `crc32c.crc32c` library function used by `checkCRC`. -/
def crc32c (data : List Nat) : Nat :=
  (data.foldl crcByteStep 0xFFFFFFFF) ^^^ 0xFFFFFFFF

/-! ## Tag (20-byte record header)

Field layout from `Tag._fields_` in the source: three marker chars,
`payloadElementSize` (u8), `chunkFlags` (u8), `payloadDataType` (u8),
`groupID` (u8), `tagID` (u8), `userIdx` (u32 LE), `payloadSize` (u64 LE). -/

structure Tag where
  t : Nat
  aOrB : Nat
  g : Nat
  payloadElementSize : Nat
  chunkFlags : Nat
  payloadDataType : Nat
  groupID : Nat
  tagID : Nat
  userIdx : Nat
  payloadSize : Nat
  deriving Repr, DecidableEq

/-- Decode a 20-byte block into a `Tag` (little-endian fields,
as `ctypes.LittleEndianStructure` does for the source's `Tag`). -/
def parseTag (bs : List Nat) : Tag :=
  { t := byteAt bs 0
    aOrB := byteAt bs 1
    g := byteAt bs 2
    payloadElementSize := byteAt bs 3
    chunkFlags := byteAt bs 4
    payloadDataType := byteAt bs 5
    groupID := byteAt bs 6
    tagID := byteAt bs 7
    userIdx := leNat ((bs.drop 8).take 4)
    payloadSize := leNat ((bs.drop 12).take 8) }

/-- `Tag.isPayloadBigEndian`: `chunkFlags & 0b0001_0000` (Python truthiness). -/
def Tag.isPayloadBigEndian (t : Tag) : Bool := t.chunkFlags &&& 0x10 != 0

/-- `Tag.usesCRC32CEncoding`: `chunkFlags & 0b0100_0000`. -/
def Tag.usesCRC32CEncoding (t : Tag) : Bool := t.chunkFlags &&& 0x40 != 0

/-- `Tag.isTagExtended`: `chunkFlags & 0b1000_0000`. -/
def Tag.isTagExtended (t : Tag) : Bool := t.chunkFlags &&& 0x80 != 0

/-- `Tag.isCharType`: `(payloadDataType & 0b0000_0001) != 0`. -/
def Tag.isCharType (t : Tag) : Bool := t.payloadDataType &&& 0x01 != 0

/-- `Tag.isIntType`: `(payloadDataType & 0b0000_0010) != 0`. -/
def Tag.isIntType (t : Tag) : Bool := t.payloadDataType &&& 0x02 != 0

/-- `Tag.isFloatType`: `(payloadDataType & 0b0000_0100) != 0`. -/
def Tag.isFloatType (t : Tag) : Bool := t.payloadDataType &&& 0x04 != 0

/-- `Tag.isDoubleType`: `(payloadDataType & 0b0000_1000) != 0`. -/
def Tag.isDoubleType (t : Tag) : Bool := t.payloadDataType &&& 0x08 != 0

/-- `Tag.isMatrix`: `payloadDataType & 0b0100_0000`. -/
def Tag.isMatrix (t : Tag) : Bool := t.payloadDataType &&& 0x40 != 0

/-- `Tag.isComplex`: `payloadDataType & 0b0010_0000`. -/
def Tag.isComplex (t : Tag) : Bool := t.payloadDataType &&& 0x20 != 0

/-- `Tag.isSane`: `(payloadDataType & 0b1001_0000) == 0 and
popCount(payloadDataType & 0b0000_1111) == 1`.  The `fastAvail` flag is the
runtime-version condition of the `popCount` dispatch. -/
def Tag.isSane (fastAvail : Bool) (t : Tag) : Bool :=
  t.payloadDataType &&& 0x90 == 0 && popCount fastAvail (t.payloadDataType &&& 0x0F) == 1

/-! ## Integrity check (`OskarBinaryReader.checkCRC`)

The source function returns the bare boolean `True` on the legacy path
(`if not hasCRC`) and a *pair* `(readCRC == calculatedCRC, rawPayload[:-4])`
on the CRC path, so its result type is modelled as a sum. -/

inductive CheckCRCResult where
  | onlyBool (ok : Bool)
  | withPayload (ok : Bool) (payload : List Nat)
  deriving Repr, DecidableEq

/-- Model of `OskarBinaryReader._readCRCFromData`:
`struct.unpack("i", payload[-4:])[0]` — the last four bytes read as a
*signed* native-byte-order (little-endian host) 32-bit integer.
(`struct.unpack` demands exactly 4 bytes; all uses below supply them.) -/
def _readCRCFromData (payload : List Nat) : Int :=
  let u := leNat (payload.drop (payload.length - 4))
  if u < 2 ^ 31 then (u : Int) else (u : Int) - 2 ^ 32

/-- Model of `OskarBinaryReader.checkCRC`.  On the legacy path it returns
the bare `True`; otherwise it computes `crc32c((rawTag + rawPayload)[:-4])`,
reads the stored CRC from the last 4 bytes via `_readCRCFromData`, and
returns the comparison together with `rawPayload[:-4]`. -/
def checkCRC (hasCRC : Bool) (rawTag rawPayload : List Nat) : CheckCRCResult :=
  if !hasCRC then
    .onlyBool true
  else
    let data := rawTag ++ rawPayload
    let stripped := rawPayload.take (rawPayload.length - 4)
    let calculatedCRC : Nat := crc32c (data.take (data.length - 4))
    let readCRC : Int := _readCRCFromData data
    .withPayload (readCRC == (calculatedCRC : Int)) stripped

/-! ## File header (64 bytes)

Field layout from `FileHeader._fields_` in the source: 9 signature chars,
six u8 fields, `oskarVersion` (u32 LE), and 44 reserved bytes that the
source splits as five u64 plus one u32 ("All these value must be 0"). -/

structure FileHeader where
  desc : List Nat
  ver : Nat
  littleEndinan : Nat
  voidptrSize : Nat
  intSize : Nat
  longSize : Nat
  floatSize : Nat
  doubleSize : Nat
  oskarVersion : Nat
  reserved0 : Nat
  reserved1 : Nat
  reserved2 : Nat
  reserved3 : Nat
  reserved4 : Nat
  reserved5 : Nat
  deriving Repr, DecidableEq

/-- Modelled from the spec: the fixed 9-byte signature identifying the
format (`"OSKARBIN"` followed by a NUL byte); the source never spells the
constant out, it only reads the `desc` field. -/
def magicBytes : List Nat := [79, 83, 75, 65, 82, 66, 73, 78, 0]

/-- Decode a 64-byte block into a `FileHeader` (little-endian fields,
per the source's `ctypes.LittleEndianStructure` layout). -/
def decodeFileHeader (bs : List Nat) : FileHeader :=
  { desc := bs.take 9
    ver := byteAt bs 9
    littleEndinan := byteAt bs 10
    voidptrSize := byteAt bs 11
    intSize := byteAt bs 12
    longSize := byteAt bs 13
    floatSize := byteAt bs 14
    doubleSize := byteAt bs 15
    oskarVersion := leNat ((bs.drop 16).take 4)
    reserved0 := leNat ((bs.drop 20).take 8)
    reserved1 := leNat ((bs.drop 28).take 8)
    reserved2 := leNat ((bs.drop 36).take 8)
    reserved3 := leNat ((bs.drop 44).take 8)
    reserved4 := leNat ((bs.drop 52).take 8)
    reserved5 := leNat ((bs.drop 60).take 4) }

/-- Errors of the reader, per the spec's taxonomy (section 7). -/
inductive ScanError where
  | formatError
  | invalidTypeDescriptor
  | checksumMismatch
  | truncatedFile
  | decodeError
  deriving Repr, DecidableEq

/-- Modelled from the spec: `parse_header` (spec 4.1) — decode the 64-byte
block with the source's `FileHeader` layout and raise `FormatError` when
the magic signature mismatches or a reserved field is non-zero.  The
prototype in the source only declares the layout; the validation is
described in the spec. -/
def parse_header (bs : List Nat) : Except ScanError FileHeader :=
  if bs.length ≠ 64 then .error .formatError
  else
    let h := decodeFileHeader bs
    if h.desc = magicBytes ∧ h.reserved0 = 0 ∧ h.reserved1 = 0 ∧ h.reserved2 = 0 ∧
        h.reserved3 = 0 ∧ h.reserved4 = 0 ∧ h.reserved5 = 0 then
      .ok h
    else .error .formatError

/-- A decoded payload value: a text string (as Unicode code points) or a
flat numeric sequence (as raw little-endian element values). -/
inductive Value where
  | str (chars : List Nat)
  | nums (vals : List Nat)
  deriving Repr, DecidableEq

/-! ## UTF-8 decoding (`OskarBinaryReader.interpreteString`)

The source delegates to Python's strict UTF-8 decoder
(`str(payload, "utf-8")`), modelled here byte-for-byte: it rejects
continuation-byte leads, overlong encodings, surrogate code points and
code points above `0x10FFFF`.  The fuel argument (at least the list
length) makes the multi-byte recursion structural. -/

/-- Is `c` a UTF-8 continuation byte (`0b10xx_xxxx`)? -/
def isContByte (c : Nat) : Bool := 0x80 ≤ c && c < 0xC0

def utf8DecodeAux : Nat → List Nat → Option (List Nat)
  | _, [] => some []
  | 0, _ :: _ => none
  | fuel + 1, b :: rest =>
    if b < 0x80 then
      (utf8DecodeAux fuel rest).map (b :: ·)
    else if b < 0xC2 then none
    else if b < 0xE0 then
      match rest with
      | c1 :: rest2 =>
        if isContByte c1 then
          (utf8DecodeAux fuel rest2).map (((b - 0xC0) * 0x40 + (c1 - 0x80)) :: ·)
        else none
      | [] => none
    else if b < 0xF0 then
      match rest with
      | c1 :: c2 :: rest2 =>
        if isContByte c1 && isContByte c2 &&
            (b != 0xE0 || 0xA0 ≤ c1) && (b != 0xED || c1 < 0xA0) then
          (utf8DecodeAux fuel rest2).map
            (((b - 0xE0) * 0x1000 + (c1 - 0x80) * 0x40 + (c2 - 0x80)) :: ·)
        else none
      | _ => none
    else if b < 0xF5 then
      match rest with
      | c1 :: c2 :: c3 :: rest2 =>
        if isContByte c1 && isContByte c2 && isContByte c3 &&
            (b != 0xF0 || 0x90 ≤ c1) && (b != 0xF4 || c1 < 0x90) then
          (utf8DecodeAux fuel rest2).map
            (((b - 0xF0) * 0x40000 + (c1 - 0x80) * 0x1000 +
              (c2 - 0x80) * 0x40 + (c3 - 0x80)) :: ·)
        else none
      | _ => none
    else none

/-- Strict UTF-8 decode of a byte list into Unicode code points. -/
def utf8Decode (bs : List Nat) : Option (List Nat) := utf8DecodeAux bs.length bs

/-- Model of `OskarBinaryReader.interpreteString`: `str(payload, "utf-8")`;
a `UnicodeDecodeError` is the spec's `DecodeError`. -/
def interpreteString (payload : List Nat) : Except ScanError Value :=
  match utf8Decode payload with
  | some cs => .ok (.str cs)
  | none => .error .decodeError

/-! ## Numeric payload decoding

`OskarBinaryReader.interpreteNumbers` has an empty body (`pass`) in the
source; the decoding below is modelled from the spec (section 4.4). -/

/-- Base element byte width given the type bits (spec 4.3, and the
`elif` chain of `Tag.printPayloadDataType`): char 1, int32 4, float32 4,
float64 8. -/
def Tag.elementWidth (t : Tag) : Nat :=
  if t.isCharType then 1
  else if t.isIntType then 4
  else if t.isFloatType then 4
  else if t.isDoubleType then 8
  else 0

/-- Shape multiplier (spec 4.3): x2 if complex, x4 if matrix, x8 if both. -/
def Tag.shapeMult (t : Tag) : Nat :=
  (if t.isComplex then 2 else 1) * (if t.isMatrix then 4 else 1)

/-- Split a list into chunks of `w` elements (fuel-driven; fuel at least
the list length suffices when `1 ≤ w`). -/
def chunkListAux (w : Nat) : Nat → List Nat → List (List Nat)
  | _, [] => []
  | 0, l => [l]
  | fuel + 1, l => l.take w :: chunkListAux w fuel (l.drop w)

def chunkList (w : Nat) (l : List Nat) : List (List Nat) := chunkListAux w l.length l

/-- One element's raw value: little-endian read, after the byte swap the
spec prescribes when the payload is big-endian. -/
def decodeScalar (bigEndian : Bool) (chunk : List Nat) : Nat :=
  if bigEndian then leNat chunk.reverse else leNat chunk

/-- Modelled from the spec: `OskarBinaryReader.interpreteNumbers`, whose
source body is `pass` — the payload length must divide evenly by
(element byte width x shape multiplier), else `DecodeError`; on success
the payload is cut into element-width chunks decoded in order. -/
def interpreteNumbers (payload : List Nat) (t : Tag) : Except ScanError Value :=
  let w := t.elementWidth
  let m := t.shapeMult
  if payload.length % (w * m) = 0 then
    .ok (.nums ((chunkList w payload).map (decodeScalar t.isPayloadBigEndian)))
  else .error .decodeError

/-- Model of `OskarBinaryReader.interpretePayloadData`: route char-typed
tags to the string decoder, all others to the numeric decoder. -/
def interpretePayloadData (t : Tag) (payload : List Nat) : Except ScanError Value :=
  if t.isCharType then interpreteString payload
  else interpreteNumbers payload t

/-! ## Per-record pipeline and file scanner

The scan loop of `OskarBinaryReader.readBinaryFile` is commented out in
the source; the composition below is modelled from the spec (sections 2
and 4.6): Tag Decoder, then Type Descriptor sanity, then Integrity
Checker (gated on the tag's CRC flag, passing `version >= 2` as the
commented-out caller does), then Payload Decoder. -/

/-- Modelled from the spec: process one record given its raw tag and raw
payload bytes. -/
def processRecord (fastAvail : Bool) (ver : Nat) (rawTag rawPayload : List Nat) :
    Except ScanError Value :=
  let tag := parseTag rawTag
  if !tag.isSane fastAvail then .error .invalidTypeDescriptor
  else if tag.usesCRC32CEncoding then
    match checkCRC (decide (2 ≤ ver)) rawTag rawPayload with
    | .onlyBool true => interpretePayloadData tag rawPayload
    | .onlyBool false => .error .checksumMismatch
    | .withPayload true stripped => interpretePayloadData tag stripped
    | .withPayload false _ => .error .checksumMismatch
  else interpretePayloadData tag rawPayload

/-- Outcome of one scanner step at a tag boundary. -/
inductive StepResult where
  | done
  | fail (e : ScanError)
  | record (t : Tag) (v : Value) (rest : List Nat)
  deriving Repr, DecidableEq

/-- Modelled from the spec: one step of the scanning loop (spec 4.6).  At
a tag boundary, zero remaining bytes is normal termination; otherwise
read a 20-byte tag, fail with `TruncatedFileError` if fewer than
`tag.payloadSize` bytes remain, else process the record and continue
after the payload. -/
def scanStep (fastAvail : Bool) (ver : Nat) (bs : List Nat) : StepResult :=
  if bs.isEmpty then .done
  else if bs.length < 20 then .fail .truncatedFile
  else
    let tag := parseTag (bs.take 20)
    let rest := bs.drop 20
    if rest.length < tag.payloadSize then .fail .truncatedFile
    else
      match processRecord fastAvail ver (bs.take 20) (rest.take tag.payloadSize) with
      | .error e => .fail e
      | .ok v => .record tag v (rest.drop tag.payloadSize)

/-- Modelled from the spec: the scanning loop, iterating `scanStep` until
normal termination or a fatal error.  The fuel `gas` only bounds the
number of records; each record consumes at least 20 bytes, so `gas` =
remaining byte count always suffices. -/
def scanLoopF (fastAvail : Bool) (ver : Nat) : Nat → List Nat →
    Except ScanError (List (Tag × Value))
  | 0, bs => if bs.isEmpty then .ok [] else .error .truncatedFile
  | gas + 1, bs =>
    match scanStep fastAvail ver bs with
    | .done => .ok []
    | .fail e => .error e
    | .record t v rest =>
      match scanLoopF fastAvail ver gas rest with
      | .error e => .error e
      | .ok tl => .ok ((t, v) :: tl)

/-- Modelled from the spec: `OskarBinaryReader.readBinaryFile` — parse and
validate the header, then scan records to the end of the byte stream. -/
def readBinaryFile (fastAvail : Bool) (bytes : List Nat) :
    Except ScanError (FileHeader × List (Tag × Value)) :=
  match parse_header (bytes.take 64) with
  | .error e => .error e
  | .ok h =>
    match scanLoopF fastAvail h.ver (bytes.drop 64).length (bytes.drop 64) with
    | .error e => .error e
    | .ok recs => .ok (h, recs)

/-! ## Well-formed files, for the scanner correctness statement -/

/-- One raw record of a well-formed file: 20 raw tag bytes, the raw
payload bytes the tag declares, and the value the pipeline decodes. -/
structure RawRecord where
  tagBytes : List Nat
  payload : List Nat
  value : Value

/-- Well-formedness of one record with respect to a format version: the
tag block is 20 bytes, it declares exactly the payload's length, and the
record pipeline decodes it successfully to `value`. -/
def RawRecord.wf (fastAvail : Bool) (ver : Nat) (r : RawRecord) : Prop :=
  r.tagBytes.length = 20 ∧
  (parseTag r.tagBytes).payloadSize = r.payload.length ∧
  processRecord fastAvail ver r.tagBytes r.payload = .ok r.value

/-- Serialize records: each tag block immediately followed by its payload. -/
def encodeRecords (rs : List RawRecord) : List Nat :=
  (rs.map fun r => r.tagBytes ++ r.payload).flatten

/-- A sample valid header block: magic, version 2, flags and sizes, app
version, 44 zero reserved bytes. -/
def sampleHeaderBytes : List Nat :=
  magicBytes ++ [2, 1, 8, 4, 8, 4, 8, 1, 0, 2, 0] ++ List.replicate 44 0

/-- A sample record: char-typed tag without CRC, payload "hi". -/
def sampleRecord : RawRecord :=
  { tagBytes := [116, 66, 71, 1, 0, 1, 0, 0, 0, 0, 0, 0, 2, 0, 0, 0, 0, 0, 0, 0]
    payload := [104, 105]
    value := .str [104, 105] }

/-! ## Helper lemmas -/

theorem leNat_nil : leNat [] = 0 := rfl

theorem leNat_cons (b : Nat) (l : List Nat) : leNat (b :: l) = b + 256 * leNat l := rfl

theorem leNat_eq_zero {l : List Nat} : leNat l = 0 ↔ ∀ b ∈ l, b = 0 := by
  induction l with
  | nil => simp [leNat_nil]
  | cons b l ih =>
    rw [leNat_cons]
    constructor
    · intro h x hx
      have hb : b = 0 ∧ leNat l = 0 := by omega
      rcases List.mem_cons.mp hx with rfl | hx
      · exact hb.1
      · exact ih.mp hb.2 x hx
    · intro h
      have hb := h b (List.mem_cons_self _ _)
      have hl : leNat l = 0 := ih.mpr fun x hx => h x (List.mem_cons_of_mem _ hx)
      omega

theorem fastPopCountAux_eq_legacy (fuel : Nat) : ∀ n : Nat,
    fastPopCountAux fuel n = legacyPopCountAux fuel n := by
  induction fuel with
  | zero => intro n; rfl
  | succ fuel ih =>
    intro n
    simp only [fastPopCountAux, legacyPopCountAux, Nat.and_one_is_mod, Nat.shiftRight_one, ih]

theorem fastPopCountAux_zero (f : Nat) : fastPopCountAux f 0 = 0 := by
  cases f <;> simp [fastPopCountAux]

theorem fastPopCountAux_congr (f : Nat) : ∀ (g n : Nat), n ≤ f → n ≤ g →
    fastPopCountAux f n = fastPopCountAux g n := by
  induction f with
  | zero =>
    intro g n hf _
    have hn : n = 0 := Nat.le_zero.mp hf
    subst hn
    rw [fastPopCountAux_zero, fastPopCountAux_zero]
  | succ f ih =>
    intro g n hf hg
    rcases Nat.eq_zero_or_pos n with rfl | hn
    · rw [fastPopCountAux_zero, fastPopCountAux_zero]
    · obtain ⟨g', rfl⟩ : ∃ g', g = g' + 1 := ⟨g - 1, by omega⟩
      have hne : n ≠ 0 := by omega
      simp only [fastPopCountAux, if_neg hne]
      rw [ih g' (n / 2) (by omega) (by omega)]

theorem fastPopCount_rec (n : Nat) (hn : n ≠ 0) :
    fastPopCount n = n % 2 + fastPopCount (n / 2) := by
  obtain ⟨m, rfl⟩ : ∃ m, n = m + 1 := ⟨n - 1, by omega⟩
  show fastPopCountAux (m + 1) (m + 1) = _
  simp only [fastPopCountAux, if_neg hn]
  rw [fastPopCountAux_congr m ((m + 1) / 2) ((m + 1) / 2) (by omega) (Nat.le_refl _)]
  rfl

theorem fastPopCount_testBit (k : Nat) : ∀ n : Nat, n < 2 ^ k →
    fastPopCount n = (List.range k).countP (fun i => n.testBit i) := by
  induction k with
  | zero =>
    intro n hn
    have hn0 : n = 0 := by simpa using hn
    subst hn0
    rfl
  | succ k ih =>
    intro n hn
    rcases Nat.eq_zero_or_pos n with rfl | hpos
    · have h0 : fastPopCount 0 = 0 := rfl
      simp [h0, Nat.zero_testBit]
    · have h2 : (2 : Nat) ^ (k + 1) = 2 * 2 ^ k := by rw [pow_succ]; ring
      rw [fastPopCount_rec n (by omega), List.range_succ_eq_map, List.countP_cons,
        List.countP_map]
      have hcomp : ((fun i => n.testBit i) ∘ Nat.succ) = fun i => (n / 2).testBit i := by
        funext i
        simp [Function.comp, Nat.testBit_succ]
      rw [hcomp, ← ih (n / 2) (by omega), Nat.testBit_zero]
      rcases Nat.mod_two_eq_zero_or_one n with h | h <;> simp [h] <;> omega

/-! ## Claim theorems -/

/-- **C10**: the two population-count implementations agree on every
natural number, both equal the number of 1 bits in the binary
representation, and `popCount` is independent of the version-dispatch
branch. -/
theorem popCount_branches_agree (fastAvail : Bool) (n : Nat) :
    popCount fastAvail n = fastPopCount n ∧
    fastPopCount n = legacyPopCount n ∧
    ∀ k : Nat, n < 2 ^ k → fastPopCount n = (List.range k).countP (fun i => n.testBit i) := by
  refine ⟨?_, fastPopCountAux_eq_legacy n n, fun k hk => fastPopCount_testBit k n hk⟩
  cases fastAvail
  · exact (fastPopCountAux_eq_legacy n n).symm
  · rfl

/-- Witness for C10 at `n = 13` (binary 1101, three 1 bits), `k = 4`. -/
theorem popCount_branches_agree_witness :
    (13 : Nat) < 2 ^ 4 ∧
    popCount false 13 = fastPopCount 13 ∧
    fastPopCount 13 = legacyPopCount 13 ∧
    fastPopCount 13 = (List.range 4).countP (fun i => (13 : Nat).testBit i) :=
  ⟨by decide, (popCount_branches_agree false 13).1, (popCount_branches_agree false 13).2.1,
    (popCount_branches_agree false 13).2.2 4 (by decide)⟩

/-- **C3**: for every byte value `b`, `Tag.isSane` on a tag whose
`payloadDataType` equals `b` holds iff exactly one of bits 0, 1, 2, 3 of
`b` is set and bits 4 and 7 of `b` are both 0. -/
theorem isSane_iff_bits (fastAvail : Bool) (t : Tag) (hb : t.payloadDataType < 256) :
    Tag.isSane fastAvail t = true ↔
      ((t.payloadDataType.testBit 0).toNat + (t.payloadDataType.testBit 1).toNat +
        (t.payloadDataType.testBit 2).toNat + (t.payloadDataType.testBit 3).toNat = 1 ∧
       t.payloadDataType.testBit 4 = false ∧ t.payloadDataType.testBit 7 = false) := by
  have key : ∀ (fa : Bool) (b : Fin 256),
      ((b.val &&& 0x90 == 0) && (popCount fa (b.val &&& 0x0F) == 1)) = true ↔
        ((b.val.testBit 0).toNat + (b.val.testBit 1).toNat +
          (b.val.testBit 2).toNat + (b.val.testBit 3).toNat = 1 ∧
         b.val.testBit 4 = false ∧ b.val.testBit 7 = false) := by decide
  simpa [Tag.isSane] using key fastAvail ⟨t.payloadDataType, hb⟩

/-- Witness for C3 on a tag with `payloadDataType = 2` (int32). -/
theorem isSane_iff_bits_witness :
    (Tag.mk 0 0 0 0 0 2 0 0 0 0).payloadDataType < 256 ∧
    (Tag.isSane true (Tag.mk 0 0 0 0 0 2 0 0 0 0) = true ↔
      (((Tag.mk 0 0 0 0 0 2 0 0 0 0).payloadDataType.testBit 0).toNat +
        ((Tag.mk 0 0 0 0 0 2 0 0 0 0).payloadDataType.testBit 1).toNat +
        ((Tag.mk 0 0 0 0 0 2 0 0 0 0).payloadDataType.testBit 2).toNat +
        ((Tag.mk 0 0 0 0 0 2 0 0 0 0).payloadDataType.testBit 3).toNat = 1 ∧
       (Tag.mk 0 0 0 0 0 2 0 0 0 0).payloadDataType.testBit 4 = false ∧
       (Tag.mk 0 0 0 0 0 2 0 0 0 0).payloadDataType.testBit 7 = false)) :=
  ⟨by decide, isSane_iff_bits true (Tag.mk 0 0 0 0 0 2 0 0 0 0) (by decide)⟩

/-- **C9**: the CRC32C function used by `checkCRC`, applied to the 9 ASCII
bytes of "123456789", evaluates to exactly 0xE3069283. -/
theorem crc32c_check_value :
    crc32c [49, 50, 51, 52, 53, 54, 55, 56, 57] = 0xE3069283 := by decide

/-- **C1** (code bug): a version-2 record whose trailing 4 payload bytes
store, as a little-endian unsigned 32-bit integer, exactly the CRC32C of
the tag bytes plus the rest of the payload, is still *rejected* by
`checkCRC`: `_readCRCFromData` reads the stored value with the *signed*
format `"i"`, so any stored CRC at or above `2^31` (such as this one)
never compares equal to the unsigned computed CRC. -/
theorem checkCRC_rejects_valid_stored_crc :
    leNat [34, 31, 147, 156] =
      crc32c (List.replicate 20 0 ++ [97, 98, 99, 100, 101]) ∧
    2 ^ 31 ≤ crc32c (List.replicate 20 0 ++ [97, 98, 99, 100, 101]) ∧
    checkCRC true (List.replicate 20 0)
        ([97, 98, 99, 100, 101] ++ [34, 31, 147, 156]) =
      .withPayload false [97, 98, 99, 100, 101] :=
  ⟨by decide, by decide, by decide⟩

/-- **C8**: with version < 2 the integrity check is a no-op that reports
success whatever the tag and payload bytes contain, and (for tags the
pipeline decodes at all, i.e. sane ones) the payload reaching the payload
decoder is unchanged. -/
theorem checkCRC_legacy_noop (ver : Nat) (hver : ver < 2)
    (rawTag rawPayload : List Nat) (fastAvail : Bool) :
    checkCRC (decide (2 ≤ ver)) rawTag rawPayload = .onlyBool true ∧
    (Tag.isSane fastAvail (parseTag rawTag) = true →
      processRecord fastAvail ver rawTag rawPayload =
        interpretePayloadData (parseTag rawTag) rawPayload) := by
  have hd : decide (2 ≤ ver) = false := by
    simp only [decide_eq_false_iff_not]
    omega
  constructor
  · rw [hd]; rfl
  · intro hsane
    cases hcrc : (parseTag rawTag).usesCRC32CEncoding <;>
      simp [processRecord, hsane, hcrc, hd, checkCRC]

/-- Witness for C8: version 1, a sane int-typed tag, payload `[1,2,3,4]`. -/
theorem checkCRC_legacy_noop_witness :
    (1 : Nat) < 2 ∧
    Tag.isSane true (parseTag [0, 0, 0, 0, 0, 2, 0, 0, 0, 0, 0, 0, 0, 0, 0, 0, 0, 0, 0, 0]) = true ∧
    checkCRC (decide (2 ≤ 1)) [0, 0, 0, 0, 0, 2, 0, 0, 0, 0, 0, 0, 0, 0, 0, 0, 0, 0, 0, 0]
        [1, 2, 3, 4] = .onlyBool true ∧
    processRecord true 1 [0, 0, 0, 0, 0, 2, 0, 0, 0, 0, 0, 0, 0, 0, 0, 0, 0, 0, 0, 0]
        [1, 2, 3, 4] =
      interpretePayloadData
        (parseTag [0, 0, 0, 0, 0, 2, 0, 0, 0, 0, 0, 0, 0, 0, 0, 0, 0, 0, 0, 0]) [1, 2, 3, 4] :=
  ⟨by decide, by decide,
    (checkCRC_legacy_noop 1 (by decide)
      [0, 0, 0, 0, 0, 2, 0, 0, 0, 0, 0, 0, 0, 0, 0, 0, 0, 0, 0, 0] [1, 2, 3, 4] true).1,
    (checkCRC_legacy_noop 1 (by decide)
      [0, 0, 0, 0, 0, 2, 0, 0, 0, 0, 0, 0, 0, 0, 0, 0, 0, 0, 0, 0] [1, 2, 3, 4] true).2
      (by decide)⟩

/-- **C6**: a tag failing `isSane` makes the record pipeline fail with
`InvalidTypeDescriptorError` before any payload interpretation, so no
decoded value is produced, whatever the payload bytes. -/
theorem processRecord_insane (fastAvail : Bool) (ver : Nat)
    (rawTag rawPayload : List Nat)
    (hins : Tag.isSane fastAvail (parseTag rawTag) = false) :
    processRecord fastAvail ver rawTag rawPayload = .error .invalidTypeDescriptor ∧
    ∀ v : Value, processRecord fastAvail ver rawTag rawPayload ≠ .ok v := by
  have h : processRecord fastAvail ver rawTag rawPayload = .error .invalidTypeDescriptor := by
    simp [processRecord, hins]
  exact ⟨h, fun v hv => by rw [h] at hv; cases hv⟩

/-- Witness for C6 at `payloadDataType = 0b1000_0001` (char bit and
reserved bit 7 both set). -/
theorem processRecord_insane_witness :
    Tag.isSane true
      (parseTag [0, 0, 0, 0, 0, 129, 0, 0, 0, 0, 0, 0, 0, 0, 0, 0, 0, 0, 0, 0]) = false ∧
    processRecord true 2 [0, 0, 0, 0, 0, 129, 0, 0, 0, 0, 0, 0, 0, 0, 0, 0, 0, 0, 0, 0]
        [104] = .error .invalidTypeDescriptor ∧
    processRecord true 2 [0, 0, 0, 0, 0, 129, 0, 0, 0, 0, 0, 0, 0, 0, 0, 0, 0, 0, 0, 0]
        [104] ≠ .ok (.str [104]) :=
  ⟨by decide,
    (processRecord_insane true 2
      [0, 0, 0, 0, 0, 129, 0, 0, 0, 0, 0, 0, 0, 0, 0, 0, 0, 0, 0, 0] [104] (by decide)).1,
    (processRecord_insane true 2
      [0, 0, 0, 0, 0, 129, 0, 0, 0, 0, 0, 0, 0, 0, 0, 0, 0, 0, 0, 0] [104] (by decide)).2
      (.str [104])⟩

/-- Pure-ASCII byte lists decode to themselves under strict UTF-8. -/
theorem utf8DecodeAux_ascii (fuel : Nat) : ∀ bs : List Nat, bs.length ≤ fuel →
    (∀ b ∈ bs, b < 128) → utf8DecodeAux fuel bs = some bs := by
  induction fuel with
  | zero =>
    intro bs hlen _
    have hnil : bs = [] := List.eq_nil_of_length_eq_zero (Nat.le_zero.mp hlen)
    subst hnil; rfl
  | succ fuel ih =>
    intro bs hlen hascii
    cases bs with
    | nil => rfl
    | cons b rest =>
      have hb : b < 128 := hascii b (List.mem_cons_self _ _)
      have hrest : ∀ x ∈ rest, x < 128 := fun x hx => hascii x (List.mem_cons_of_mem _ hx)
      have hlen' : rest.length ≤ fuel := by
        simp only [List.length_cons] at hlen; omega
      simp only [utf8DecodeAux, if_pos hb, ih rest hlen' hrest, Option.map_some']

/-- **C7**: a tag with the char base-type bit set always routes the
payload to the UTF-8 string decoder; a successful decode yields exactly
the UTF-8 reading of the payload bytes (in particular, pure-ASCII
payloads decode to themselves) and invalid UTF-8 raises `DecodeError`. -/
theorem interpretePayloadData_char (t : Tag) (payload : List Nat)
    (hchar : t.isCharType = true) :
    interpretePayloadData t payload = interpreteString payload ∧
    (∀ cs, utf8Decode payload = some cs →
      interpretePayloadData t payload = .ok (.str cs)) ∧
    ((∀ b ∈ payload, b < 128) → interpretePayloadData t payload = .ok (.str payload)) ∧
    (utf8Decode payload = none → interpretePayloadData t payload = .error .decodeError) := by
  have hroute : interpretePayloadData t payload = interpreteString payload := by
    simp [interpretePayloadData, hchar]
  refine ⟨hroute, fun cs hcs => ?_, fun hascii => ?_, fun hbad => ?_⟩
  · rw [hroute]; unfold interpreteString; rw [hcs]
  · rw [hroute]; unfold interpreteString utf8Decode
    rw [utf8DecodeAux_ascii payload.length payload (Nat.le_refl _) hascii]
  · rw [hroute]; unfold interpreteString; rw [hbad]

/-- The 44 reserved bytes of a 64-byte header are exactly the six
little-endian reserved fields' bytes, concatenated. -/
theorem drop20_eq_reserved_segments (bs : List Nat) (hlen : bs.length = 64) :
    bs.drop 20 =
      (bs.drop 20).take 8 ++ ((bs.drop 28).take 8 ++ ((bs.drop 36).take 8 ++
        ((bs.drop 44).take 8 ++ ((bs.drop 52).take 8 ++ (bs.drop 60).take 4)))) := by
  have e60 : (bs.drop 60).take 4 = bs.drop 60 :=
    List.take_of_length_le (by rw [List.length_drop]; omega)
  have e52 : (bs.drop 52).take 8 ++ bs.drop 60 = bs.drop 52 := by
    have h : bs.drop 60 = (bs.drop 52).drop 8 := by rw [List.drop_drop]
    rw [h, List.take_append_drop]
  have e44 : (bs.drop 44).take 8 ++ bs.drop 52 = bs.drop 44 := by
    have h : bs.drop 52 = (bs.drop 44).drop 8 := by rw [List.drop_drop]
    rw [h, List.take_append_drop]
  have e36 : (bs.drop 36).take 8 ++ bs.drop 44 = bs.drop 36 := by
    have h : bs.drop 44 = (bs.drop 36).drop 8 := by rw [List.drop_drop]
    rw [h, List.take_append_drop]
  have e28 : (bs.drop 28).take 8 ++ bs.drop 36 = bs.drop 28 := by
    have h : bs.drop 36 = (bs.drop 28).drop 8 := by rw [List.drop_drop]
    rw [h, List.take_append_drop]
  have e20 : (bs.drop 20).take 8 ++ bs.drop 28 = bs.drop 20 := by
    have h : bs.drop 28 = (bs.drop 20).drop 8 := by rw [List.drop_drop]
    rw [h, List.take_append_drop]
  rw [e60, e52, e44, e36, e28]
  exact e20.symm

/-- All 44 reserved bytes are zero iff all six reserved fields decode
to zero. -/
theorem reserved_bytes_zero_iff (bs : List Nat) (hlen : bs.length = 64) :
    ((∀ b ∈ (bs.drop 20).take 8, b = 0) ∧ (∀ b ∈ (bs.drop 28).take 8, b = 0) ∧
     (∀ b ∈ (bs.drop 36).take 8, b = 0) ∧ (∀ b ∈ (bs.drop 44).take 8, b = 0) ∧
     (∀ b ∈ (bs.drop 52).take 8, b = 0) ∧ (∀ b ∈ (bs.drop 60).take 4, b = 0)) ↔
    (∀ b ∈ bs.drop 20, b = 0) := by
  constructor
  · intro hsix
    rw [drop20_eq_reserved_segments bs hlen]
    simp only [List.forall_mem_append]
    tauto
  · intro hall
    rw [drop20_eq_reserved_segments bs hlen] at hall
    simp only [List.forall_mem_append] at hall
    tauto

/-- **C5**: parsing a 64-byte block as a file header fails with
`FormatError` iff the 9-byte magic signature mismatches or one of the 44
reserved bytes is non-zero; otherwise it succeeds with the decoded
`FileHeader`. -/
theorem parse_header_iff (bs : List Nat) (hlen : bs.length = 64) :
    (parse_header bs = .error .formatError ↔
      (bs.take 9 ≠ magicBytes ∨ ∃ b ∈ bs.drop 20, b ≠ 0)) ∧
    ((bs.take 9 = magicBytes ∧ ∀ b ∈ bs.drop 20, b = 0) →
      parse_header bs = .ok (decodeFileHeader bs)) := by
  have hne : ¬ bs.length ≠ 64 := by omega
  have hcond : ((decodeFileHeader bs).desc = magicBytes ∧
      (decodeFileHeader bs).reserved0 = 0 ∧ (decodeFileHeader bs).reserved1 = 0 ∧
      (decodeFileHeader bs).reserved2 = 0 ∧ (decodeFileHeader bs).reserved3 = 0 ∧
      (decodeFileHeader bs).reserved4 = 0 ∧ (decodeFileHeader bs).reserved5 = 0) ↔
      (bs.take 9 = magicBytes ∧ ∀ b ∈ bs.drop 20, b = 0) := by
    show (bs.take 9 = magicBytes ∧ leNat ((bs.drop 20).take 8) = 0 ∧
        leNat ((bs.drop 28).take 8) = 0 ∧ leNat ((bs.drop 36).take 8) = 0 ∧
        leNat ((bs.drop 44).take 8) = 0 ∧ leNat ((bs.drop 52).take 8) = 0 ∧
        leNat ((bs.drop 60).take 4) = 0) ↔ _
    rw [leNat_eq_zero, leNat_eq_zero, leNat_eq_zero, leNat_eq_zero, leNat_eq_zero,
      leNat_eq_zero]
    exact and_congr_right fun _ => reserved_bytes_zero_iff bs hlen
  have hform : parse_header bs =
      if ((decodeFileHeader bs).desc = magicBytes ∧
          (decodeFileHeader bs).reserved0 = 0 ∧ (decodeFileHeader bs).reserved1 = 0 ∧
          (decodeFileHeader bs).reserved2 = 0 ∧ (decodeFileHeader bs).reserved3 = 0 ∧
          (decodeFileHeader bs).reserved4 = 0 ∧ (decodeFileHeader bs).reserved5 = 0) then
        .ok (decodeFileHeader bs)
      else .error .formatError := by
    simp only [parse_header, if_neg hne]
  constructor
  · by_cases hc : bs.take 9 = magicBytes ∧ ∀ b ∈ bs.drop 20, b = 0
    · rw [hform, if_pos (hcond.mpr hc)]
      apply iff_of_false
      · intro habs; exact Except.noConfusion habs
      · rintro (hmagic | ⟨b, hb, hbne⟩)
        · exact hmagic hc.1
        · exact hbne (hc.2 b hb)
    · rw [hform, if_neg (fun h => hc (hcond.mp h))]
      apply iff_of_true rfl
      by_contra habs
      push_neg at habs
      exact hc habs
  · intro hc
    rw [hform, if_pos (hcond.mpr hc)]

/-- Witness for C5: a concrete valid header block (magic, version 2,
platform sizes, app version, 44 zero reserved bytes) parses successfully. -/
theorem parse_header_iff_witness :
    (magicBytes ++ [2, 1, 8, 4, 8, 4, 8, 1, 0, 2, 0] ++ List.replicate 44 0).length = 64 ∧
    (magicBytes ++ [2, 1, 8, 4, 8, 4, 8, 1, 0, 2, 0] ++ List.replicate 44 0).take 9 =
      magicBytes ∧
    ((magicBytes ++ [2, 1, 8, 4, 8, 4, 8, 1, 0, 2, 0] ++ List.replicate 44 0).drop 20).all
      (· == 0) = true ∧
    parse_header (magicBytes ++ [2, 1, 8, 4, 8, 4, 8, 1, 0, 2, 0] ++ List.replicate 44 0) =
      .ok (decodeFileHeader
        (magicBytes ++ [2, 1, 8, 4, 8, 4, 8, 1, 0, 2, 0] ++ List.replicate 44 0)) :=
  ⟨by decide, by decide, by decide,
    (parse_header_iff (magicBytes ++ [2, 1, 8, 4, 8, 4, 8, 1, 0, 2, 0] ++ List.replicate 44 0)
        (by decide)).2 ⟨by decide, by decide⟩⟩

/-- A sane tag without the char bit has exactly one of the int, float and
double bits, hence element width 4 or 8, and a shape multiplier in
{1, 2, 4, 8}. -/
theorem elementWidth_of_sane (fastAvail : Bool) (t : Tag)
    (hs : Tag.isSane fastAvail t = true) (hc : t.isCharType = false) :
    (t.elementWidth = 4 ∨ t.elementWidth = 8) ∧
    (t.shapeMult = 1 ∨ t.shapeMult = 2 ∨ t.shapeMult = 4 ∨ t.shapeMult = 8) := by
  constructor
  · have hm : t.payloadDataType &&& 15 < 16 := Nat.lt_succ_of_le Nat.and_le_right
    have hs2 : (popCount fastAvail (t.payloadDataType &&& 0x0F) == 1) = true := by
      have := hs
      simp only [Tag.isSane, Bool.and_eq_true] at this
      exact this.2
    have hc1 : t.payloadDataType &&& 1 = 0 := by
      simpa [Tag.isCharType] using hc
    have htr1 : (t.payloadDataType &&& 15) &&& 1 = t.payloadDataType &&& 1 := by
      rw [Nat.and_assoc, (by decide : (15 &&& 1 : Nat) = 1)]
    have htr2 : (t.payloadDataType &&& 15) &&& 2 = t.payloadDataType &&& 2 := by
      rw [Nat.and_assoc, (by decide : (15 &&& 2 : Nat) = 2)]
    have htr4 : (t.payloadDataType &&& 15) &&& 4 = t.payloadDataType &&& 4 := by
      rw [Nat.and_assoc, (by decide : (15 &&& 4 : Nat) = 4)]
    have htr8 : (t.payloadDataType &&& 15) &&& 8 = t.payloadDataType &&& 8 := by
      rw [Nat.and_assoc, (by decide : (15 &&& 8 : Nat) = 8)]
    have key : ∀ (fa : Bool) (m : Fin 16), (popCount fa m.val == 1) = true →
        m.val &&& 1 = 0 →
        (m.val &&& 2 ≠ 0 ∨ (m.val &&& 2 = 0 ∧ m.val &&& 4 ≠ 0) ∨
          (m.val &&& 2 = 0 ∧ m.val &&& 4 = 0 ∧ m.val &&& 8 ≠ 0)) := by decide
    have hkey := key fastAvail ⟨t.payloadDataType &&& 15, hm⟩ hs2 (by
      show (t.payloadDataType &&& 15) &&& 1 = 0
      rw [htr1]; exact hc1)
    simp only [htr2, htr4, htr8] at hkey
    rcases hkey with h2 | ⟨h2, h4⟩ | ⟨h2, h4, h8⟩
    · left
      simp [Tag.elementWidth, Tag.isCharType, Tag.isIntType, hc1, h2]
    · left
      simp [Tag.elementWidth, Tag.isCharType, Tag.isIntType, Tag.isFloatType, hc1, h2, h4]
    · right
      simp [Tag.elementWidth, Tag.isCharType, Tag.isIntType, Tag.isFloatType,
        Tag.isDoubleType, hc1, h2, h4, h8]
  · cases hcx : t.isComplex <;> cases hmx : t.isMatrix <;>
      simp [Tag.shapeMult, hcx, hmx]

/-- Chunks of width `w >= 1` concatenate back to the original list. -/
theorem chunkListAux_flatten (w : Nat) (hw : 1 ≤ w) (fuel : Nat) :
    ∀ l : List Nat, l.length ≤ fuel → (chunkListAux w fuel l).flatten = l := by
  induction fuel with
  | zero =>
    intro l hl
    have hnil : l = [] := List.eq_nil_of_length_eq_zero (Nat.le_zero.mp hl)
    subst hnil; rfl
  | succ fuel ih =>
    intro l hl
    cases l with
    | nil => rfl
    | cons a l' =>
      show (List.take w (a :: l') :: chunkListAux w fuel (List.drop w (a :: l'))).flatten
        = a :: l'
      rw [List.flatten_cons, ih (List.drop w (a :: l'))
        (by rw [List.length_drop]; simp only [List.length_cons] at hl ⊢; omega),
        List.take_append_drop]

/-- When `w` divides the list length, the number of chunks times `w`
recovers the list length. -/
theorem chunkListAux_length (w : Nat) (hw : 1 ≤ w) (fuel : Nat) :
    ∀ l : List Nat, l.length ≤ fuel → w ∣ l.length →
      (chunkListAux w fuel l).length * w = l.length := by
  induction fuel with
  | zero =>
    intro l hl _
    have hnil : l = [] := List.eq_nil_of_length_eq_zero (Nat.le_zero.mp hl)
    subst hnil; simp [chunkListAux]
  | succ fuel ih =>
    intro l hl hdvd
    cases l with
    | nil => simp [chunkListAux]
    | cons a l' =>
      have hwle : w ≤ (a :: l').length := Nat.le_of_dvd (by simp) hdvd
      have hdrop : w ∣ (List.drop w (a :: l')).length := by
        rw [List.length_drop]
        exact Nat.dvd_sub' hdvd dvd_rfl
      show (List.take w (a :: l') :: chunkListAux w fuel (List.drop w (a :: l'))).length * w
        = (a :: l').length
      rw [List.length_cons, Nat.succ_mul,
        ih (List.drop w (a :: l'))
          (by rw [List.length_drop]; simp only [List.length_cons] at hl ⊢; omega) hdrop,
        List.length_drop]
      omega

/-- **C4**: for every sane non-char tag and payload, the numeric decoder
fails with `DecodeError` exactly when the payload length is not evenly
divisible by (element byte width x shape multiplier); otherwise it yields
the flat sequence of scalars decoded chunk-by-chunk in payload order,
covering the whole payload. -/
theorem interpreteNumbers_spec (fastAvail : Bool) (t : Tag) (payload : List Nat)
    (hs : Tag.isSane fastAvail t = true) (hc : t.isCharType = false) :
    (¬ t.elementWidth * t.shapeMult ∣ payload.length →
        interpretePayloadData t payload = .error .decodeError) ∧
    (t.elementWidth * t.shapeMult ∣ payload.length →
        interpretePayloadData t payload =
          .ok (.nums ((chunkList t.elementWidth payload).map
            (decodeScalar t.isPayloadBigEndian))) ∧
        (chunkList t.elementWidth payload).flatten = payload ∧
        ((chunkList t.elementWidth payload).map
            (decodeScalar t.isPayloadBigEndian)).length * t.elementWidth
          = payload.length) := by
  have hroute : interpretePayloadData t payload = interpreteNumbers payload t := by
    simp [interpretePayloadData, hc]
  have hw : 1 ≤ t.elementWidth := by
    rcases (elementWidth_of_sane fastAvail t hs hc).1 with h | h <;> omega
  constructor
  · intro hndvd
    rw [hroute]
    unfold interpreteNumbers
    rw [if_neg (by rw [← Nat.dvd_iff_mod_eq_zero]; exact hndvd)]
  · intro hdvd
    have hwdvd : t.elementWidth ∣ payload.length :=
      dvd_trans (Dvd.intro t.shapeMult rfl) hdvd
    refine ⟨?_, ?_, ?_⟩
    · rw [hroute]
      unfold interpreteNumbers
      rw [if_pos (by rw [← Nat.dvd_iff_mod_eq_zero]; exact hdvd)]
    · exact chunkListAux_flatten t.elementWidth hw payload.length payload (Nat.le_refl _)
    · rw [List.length_map]
      exact chunkListAux_length t.elementWidth hw payload.length payload (Nat.le_refl _) hwdvd

/-- Witness for C4: an int32 tag (no modifiers) with an 8-byte payload
decodes to the two little-endian 32-bit values, covering the payload. -/
theorem interpreteNumbers_spec_witness :
    Tag.isSane true (Tag.mk 0 0 0 0 0 2 0 0 0 0) = true ∧
    (Tag.mk 0 0 0 0 0 2 0 0 0 0).isCharType = false ∧
    (Tag.mk 0 0 0 0 0 2 0 0 0 0).elementWidth * (Tag.mk 0 0 0 0 0 2 0 0 0 0).shapeMult ∣
      ([1, 2, 3, 4, 5, 6, 7, 8] : List Nat).length ∧
    interpretePayloadData (Tag.mk 0 0 0 0 0 2 0 0 0 0) [1, 2, 3, 4, 5, 6, 7, 8] =
      .ok (.nums ((chunkList (Tag.mk 0 0 0 0 0 2 0 0 0 0).elementWidth
          [1, 2, 3, 4, 5, 6, 7, 8]).map
        (decodeScalar (Tag.mk 0 0 0 0 0 2 0 0 0 0).isPayloadBigEndian))) ∧
    (chunkList (Tag.mk 0 0 0 0 0 2 0 0 0 0).elementWidth [1, 2, 3, 4, 5, 6, 7, 8]).flatten =
      [1, 2, 3, 4, 5, 6, 7, 8] :=
  ⟨by decide, rfl, ⟨2, rfl⟩,
    ((interpreteNumbers_spec true (Tag.mk 0 0 0 0 0 2 0 0 0 0) [1, 2, 3, 4, 5, 6, 7, 8]
        (by decide) rfl).2 ⟨2, rfl⟩).1,
    ((interpreteNumbers_spec true (Tag.mk 0 0 0 0 0 2 0 0 0 0) [1, 2, 3, 4, 5, 6, 7, 8]
        (by decide) rfl).2 ⟨2, rfl⟩).2.1⟩

/-- Witness for C7: a char tag with ASCII payload "hi" decodes to itself;
the lone byte `0xFF` is invalid UTF-8 and yields `DecodeError`. -/
theorem interpretePayloadData_char_witness :
    (Tag.mk 0 0 0 0 0 1 0 0 0 0).isCharType = true ∧
    interpretePayloadData (Tag.mk 0 0 0 0 0 1 0 0 0 0) [104, 105] = .ok (.str [104, 105]) ∧
    utf8Decode [255] = none ∧
    interpretePayloadData (Tag.mk 0 0 0 0 0 1 0 0 0 0) [255] = .error .decodeError :=
  ⟨rfl,
    (interpretePayloadData_char (Tag.mk 0 0 0 0 0 1 0 0 0 0) [104, 105] rfl).2.2.1 (by decide),
    rfl,
    (interpretePayloadData_char (Tag.mk 0 0 0 0 0 1 0 0 0 0) [255] rfl).2.2.2 rfl⟩

/-- One serialized record at the front of the byte stream scans as
exactly one `record` step. -/
theorem scanStep_encode (fastAvail : Bool) (ver : Nat) (r : RawRecord)
    (hwf : RawRecord.wf fastAvail ver r) (rest : List Nat) :
    scanStep fastAvail ver (r.tagBytes ++ (r.payload ++ rest)) =
      .record (parseTag r.tagBytes) r.value rest := by
  obtain ⟨h20, hsize, hproc⟩ := hwf
  have hlen : (r.tagBytes ++ (r.payload ++ rest)).length =
      20 + (r.payload.length + rest.length) := by
    simp [List.length_append, h20]
  have hne : (r.tagBytes ++ (r.payload ++ rest)).isEmpty = false := by
    rw [List.isEmpty_eq_false]
    intro hnil
    rw [hnil] at hlen
    simp at hlen
    omega
  have htake : (r.tagBytes ++ (r.payload ++ rest)).take 20 = r.tagBytes :=
    List.take_left' h20
  have hdrop : (r.tagBytes ++ (r.payload ++ rest)).drop 20 = r.payload ++ rest :=
    List.drop_left' h20
  have htake2 : (r.payload ++ rest).take r.payload.length = r.payload :=
    List.take_left' rfl
  have hdrop2 : (r.payload ++ rest).drop r.payload.length = rest :=
    List.drop_left' rfl
  have hc1 : ¬ 20 + (r.payload.length + rest.length) < 20 := by omega
  have hc2 : ¬ r.payload.length + rest.length < r.payload.length := by omega
  simp [scanStep, hne, htake, hdrop, htake2, hdrop2, hproc, h20, hsize, hc1, hc2]

/-- Scanning an empty byte stream terminates normally with no records. -/
theorem scanLoopF_nil (fastAvail : Bool) (ver : Nat) (gas : Nat) :
    scanLoopF fastAvail ver gas [] = .ok [] := by
  cases gas <;> simp [scanLoopF, scanStep]

/-- Scanning a serialized well-formed record list yields exactly those
records, in order. -/
theorem scanLoopF_encode (fastAvail : Bool) (ver : Nat) :
    ∀ (rs : List RawRecord) (gas : Nat), rs.length ≤ gas →
      (∀ r ∈ rs, RawRecord.wf fastAvail ver r) →
      scanLoopF fastAvail ver gas (encodeRecords rs) =
        .ok (rs.map fun r => (parseTag r.tagBytes, r.value)) := by
  intro rs
  induction rs with
  | nil =>
    intro gas _ _
    show scanLoopF fastAvail ver gas [] = .ok []
    exact scanLoopF_nil fastAvail ver gas
  | cons r rs ih =>
    intro gas hgas hwf
    obtain ⟨g, rfl⟩ : ∃ g, gas = g + 1 := by
      cases gas
      · simp at hgas
      · exact ⟨_, rfl⟩
    have henc : encodeRecords (r :: rs) = r.tagBytes ++ (r.payload ++ encodeRecords rs) := by
      simp [encodeRecords, List.append_assoc]
    rw [henc]
    have hstep := scanStep_encode fastAvail ver r (hwf r (List.mem_cons_self _ _))
      (encodeRecords rs)
    have hrec := ih g (by simp at hgas; omega)
      (fun x hx => hwf x (List.mem_cons_of_mem _ hx))
    simp [scanLoopF, hstep, hrec]

/-- Each record occupies at least its 20 tag bytes, so the byte count of a
serialized file bounds the record count: byte-length fuel suffices. -/
theorem encodeRecords_ge (rs : List RawRecord)
    (h : ∀ r ∈ rs, r.tagBytes.length = 20) :
    rs.length ≤ (encodeRecords rs).length := by
  induction rs with
  | nil => simp [encodeRecords]
  | cons r rs ih =>
    have h20 := h r (List.mem_cons_self _ _)
    have hrest := ih fun x hx => h x (List.mem_cons_of_mem _ hx)
    have henc : encodeRecords (r :: rs) = r.tagBytes ++ (r.payload ++ encodeRecords rs) := by
      simp [encodeRecords, List.append_assoc]
    rw [henc]
    simp only [List.length_append, List.length_cons, h20]
    omega

/-- **C2**: a well-formed input — a valid 64-byte header followed by
records whose declared payload sizes exactly exhaust the remaining bytes
and which each process successfully — scans to exactly those records as
(tag, decoded value) pairs in file order, then terminates normally with
no error. -/
theorem readBinaryFile_wellformed (fastAvail : Bool) (hdrBytes : List Nat)
    (h : FileHeader) (rs : List RawRecord)
    (hhdr : parse_header hdrBytes = .ok h)
    (hwf : ∀ r ∈ rs, RawRecord.wf fastAvail h.ver r) :
    readBinaryFile fastAvail (hdrBytes ++ encodeRecords rs) =
      .ok (h, rs.map fun r => (parseTag r.tagBytes, r.value)) := by
  have hlen : hdrBytes.length = 64 := by
    by_contra hne
    unfold parse_header at hhdr
    rw [if_pos hne] at hhdr
    cases hhdr
  have hscan := scanLoopF_encode fastAvail h.ver rs (encodeRecords rs).length
    (encodeRecords_ge rs fun r hr => (hwf r hr).1) hwf
  simp [readBinaryFile, List.take_left' hlen, hhdr, List.drop_left' hlen, hscan]

/-- Witness for C2: a concrete well-formed file with 3 records ("hi"
char payloads) scans to exactly those 3 records. -/
theorem readBinaryFile_wellformed_witness :
    parse_header sampleHeaderBytes = .ok (decodeFileHeader sampleHeaderBytes) ∧
    RawRecord.wf true (decodeFileHeader sampleHeaderBytes).ver sampleRecord ∧
    readBinaryFile true
        (sampleHeaderBytes ++ encodeRecords [sampleRecord, sampleRecord, sampleRecord]) =
      .ok (decodeFileHeader sampleHeaderBytes,
        [sampleRecord, sampleRecord, sampleRecord].map fun r =>
          (parseTag r.tagBytes, r.value)) :=
  ⟨rfl, ⟨rfl, rfl, rfl⟩,
    readBinaryFile_wellformed true sampleHeaderBytes (decodeFileHeader sampleHeaderBytes)
      [sampleRecord, sampleRecord, sampleRecord] rfl
      (by
        intro x hx
        rcases List.mem_cons.mp hx with rfl | hx
        · exact ⟨rfl, rfl, rfl⟩
        rcases List.mem_cons.mp hx with rfl | hx
        · exact ⟨rfl, rfl, rfl⟩
        rcases List.mem_cons.mp hx with rfl | hx
        · exact ⟨rfl, rfl, rfl⟩
        cases hx)⟩
